import Mathlib

/-!
# Annotated rich-text editor (`src/app.js`)

A shallow embedding of the editor's three core subsystems:

* the Markdown renderer `htmlToMarkdown` / `processNode`, a pure recursive transform
  of the tree obtained by parsing the editor's HTML;
* the path codec `getNodePath` / `resolveNodePath` and the tooltip unwrap
  `removeTooltip`, which work on the live DOM (nodes with identity, a parent pointer
  and an ordered child list);
* the selection bridge `storeCurrentSelection` / `restoreSelection` and the tooltip
  creation and editing paths.

JavaScript strings are modelled by `String`; the whitespace class is the one of
ECMAScript (`String.prototype.trim` and the regular-expression class `\s`).
-/

namespace Editor

/-! ## JavaScript string primitives -/

/-- ECMAScript line terminators: LF, CR, LS, PS. -/
def isLineTerminator (c : Char) : Bool :=
  c.toNat = 0x0A || c.toNat = 0x0D || c.toNat = 0x2028 || c.toNat = 0x2029

/-- ECMAScript white space and line terminators: what `trim` strips and `\s` matches. -/
def isJsSpace (c : Char) : Bool :=
  c.toNat = 0x09 || c.toNat = 0x0B || c.toNat = 0x0C || c.toNat = 0x20 ||
  c.toNat = 0xA0 || c.toNat = 0x1680 || (0x2000 ≤ c.toNat && c.toNat ≤ 0x200A) ||
  c.toNat = 0x202F || c.toNat = 0x205F || c.toNat = 0x3000 || c.toNat = 0xFEFF ||
  isLineTerminator c

/-- Characters of `s.trim()`. -/
def trimChars (l : List Char) : List Char :=
  ((l.dropWhile isJsSpace).reverse.dropWhile isJsSpace).reverse

/-- The method `String.prototype.trim`. -/
def jsTrim (s : String) : String := ⟨trimChars s.data⟩

/-- Characters of `s.replace(/\s+/g, ' ')`; the flag says that the previous character
belonged to a run of white space that already produced its single space. -/
def collapseSpaceChars : Bool → List Char → List Char
  | _, [] => []
  | inRun, c :: cs =>
    if isJsSpace c then
      if inRun then collapseSpaceChars true cs else ' ' :: collapseSpaceChars true cs
    else c :: collapseSpaceChars false cs

/-- The call `s.replace(/\s+/g, ' ')`. -/
def collapseSpaces (s : String) : String := ⟨collapseSpaceChars false s.data⟩

/-- Characters of `s.replace(/\n{3,}/g, '\n\n')`; the counter is the number of newlines
of the current run that were already emitted. -/
def collapseNewlineChars : Nat → List Char → List Char
  | _, [] => []
  | n, c :: cs =>
    if c = '\n' then
      if n < 2 then '\n' :: collapseNewlineChars (n + 1) cs else collapseNewlineChars n cs
    else c :: collapseNewlineChars 0 cs

/-- The call `s.replace(/\n{3,}/g, '\n\n')`. -/
def collapseNewlines (s : String) : String := ⟨collapseNewlineChars 0 s.data⟩

/-- Pieces of `s.split('\n')`, as character lists. -/
def splitLineChars : List Char → List (List Char)
  | [] => [[]]
  | c :: cs =>
    match splitLineChars cs with
    | [] => if c = '\n' then [[], []] else [[c]]
    | l :: ls => if c = '\n' then [] :: l :: ls else (c :: l) :: ls

/-- The call `s.split('\n')`. -/
def splitLines (s : String) : List String := (splitLineChars s.data).map String.mk

/-- The call `parts.join(sep)`. -/
def joinWith (sep : String) (parts : List String) : String :=
  ⟨List.intercalate sep.data (parts.map String.data)⟩

/-- Length of the match of `\s*[\r\n]` at the head of the list (0 when there is none):
the greedy `\s*` backtracks to the last CR or LF of the leading run of white space. -/
def blankMatchLen (l : List Char) : Nat :=
  (((l.takeWhile isJsSpace).reverse).dropWhile
    (fun c => !(c.toNat = 0x0D || c.toNat = 0x0A))).length

/-- Characters of `s.replace(/^\s*[\r\n]/gm, '')`. The counter is the number of
characters of the current match still to delete, the flag says that the position
is at the start of a line (`^` with the `m` flag). -/
def stripBlankChars : Nat → Bool → List Char → List Char
  | _, _, [] => []
  | skip + 1, _, _ :: cs => stripBlankChars skip true cs
  | 0, true, c :: cs =>
    match blankMatchLen (c :: cs) with
    | 0 => c :: stripBlankChars 0 (isLineTerminator c) cs
    | k + 1 => stripBlankChars k true cs
  | 0, false, c :: cs => c :: stripBlankChars 0 (isLineTerminator c) cs

/-- The call `s.replace(/^\s*[\r\n]/gm, '')`. -/
def stripBlankLines (s : String) : String := ⟨stripBlankChars 0 true s.data⟩

/-! ## The parsed tree and the Markdown renderer -/

/-- A node of the tree that `container.innerHTML = htmlString` builds. For an element,
`tag` is `node.tagName.toLowerCase()`, `classList` the tokens of its class attribute and
`attrs` its other attributes (`data-tooltip` is `node.dataset.tooltip`). `other` is a
node that is neither text nor element (a comment). -/
inductive HNode where
  | text (nodeValue : String)
  | element (tag : String) (classList : List String) (attrs : List (String × String))
      (childNodes : List HNode)
  | other

/-- Value of an attribute, `none` when the element does not have it. -/
def getAttribute (attrs : List (String × String)) (name : String) : Option String :=
  (attrs.find? (fun kv => kv.1 = name)).map Prod.snd

/-- Interpolation of `node.getAttribute('href')` in a template literal. -/
def hrefText (attrs : List (String × String)) : String :=
  match getAttribute attrs "href" with
  | some h => h
  | none => "null"

/-- The suffix built by the `span` case: `^{tooltip}` when `node.dataset.tooltip` is a
non-empty string, nothing otherwise. -/
def tooltipSuffix (attrs : List (String × String)) : String :=
  match getAttribute attrs "data-tooltip" with
  | some t => if t = "" then "" else "^\x7b" ++ t ++ "\x7d"
  | none => ""

/-- One line of a block quote. -/
def quoteLine (line : String) : String :=
  if jsTrim line = "" then ">" else "> " ++ jsTrim line

mutual
/-- The function `processNode` of `htmlToMarkdown`. -/
def processNode : HNode → String
  | .text v => collapseSpaces v
  | .other => ""
  | .element tag classList attrs childNodes =>
    let children := processChildren childNodes
    if tag = "h1" then "# " ++ children ++ "\n\n"
    else if tag = "h2" then "## " ++ children ++ "\n\n"
    else if tag = "h3" then "### " ++ children ++ "\n\n"
    else if tag = "h4" then "#### " ++ children ++ "\n\n"
    else if tag = "strong" ∨ tag = "b" then "**" ++ jsTrim children ++ "**"
    else if tag = "em" ∨ tag = "i" then "_" ++ jsTrim children ++ "_"
    else if tag = "u" then "<u>" ++ jsTrim children ++ "</u>"
    else if tag = "s" ∨ tag = "strike" ∨ tag = "del" then "~~" ++ jsTrim children ++ "~~"
    else if tag = "blockquote" then
      joinWith "\n" ((splitLines children).map quoteLine) ++ "\n\n"
    else if tag = "p" then jsTrim children ++ "\n\n"
    else if tag = "br" then "  \n"
    else if tag = "ul" then stripBlankLines children ++ "\n"
    else if tag = "ol" then joinWith "\n" (processItems 1 childNodes) ++ "\n\n"
    else if tag = "li" then "- " ++ jsTrim children ++ "\n"
    else if tag = "a" then "[" ++ jsTrim children ++ "](" ++ hrefText attrs ++ ")"
    else if tag = "span" then
      if "tooltip-anchor" ∈ classList then jsTrim children ++ tooltipSuffix attrs
      else children
    else children
/-- The expression `Array.from(node.childNodes).map(processNode).join('')`. -/
def processChildren : List HNode → String
  | [] => ""
  | n :: ns => processNode n ++ processChildren ns
/-- The lines of the `ol` case: `node.children` (the element children only) mapped to
the counter, a dot, a space and the trimmed rendering of the child. -/
def processItems : Nat → List HNode → List String
  | _, [] => []
  | index, .element tag classList attrs childNodes :: ns =>
    (toString index ++ ". " ++ jsTrim (processNode (.element tag classList attrs childNodes)))
      :: processItems (index + 1) ns
  | index, .text _ :: ns => processItems index ns
  | index, .other :: ns => processItems index ns
end

/-- The function `htmlToMarkdown`, applied to the nodes that parsing `htmlString` puts
under the container `div`. -/
def htmlToMarkdown (parsed : List HNode) : String :=
  jsTrim (collapseNewlines (processNode (.element "div" [] [] parsed)))

/-! ## The live DOM -/

/-- Identity of a DOM node: its index in the store of all nodes. -/
abbrev NodeId := Nat

/-- A DOM node: the parent pointer, the ordered child list and what the editor reads of
an element (`tag` is `none` for a node that is not an element: a text node, the
document). -/
structure DomNode where
  parentNode : Option NodeId
  childNodes : List NodeId
  tag : Option String
  nodeValue : String
  classList : List String
  dataset : List (String × String)
  tabIndex : Option Int
deriving DecidableEq, Repr

/-- All the nodes that exist, attached to the document or not. -/
abbrev Dom := List DomNode

/-- The property `node.parentNode` (`none` is `null`). -/
def parentNode (dom : Dom) (n : NodeId) : Option NodeId :=
  (dom[n]?).bind DomNode.parentNode

/-- The property `node.childNodes`. -/
def childNodes (dom : Dom) (n : NodeId) : List NodeId :=
  match dom[n]? with
  | some x => x.childNodes
  | none => []

/-- The method `Array.prototype.indexOf`: -1 when the element is absent. -/
def indexOf (l : List NodeId) (x : NodeId) : Int :=
  if x ∈ l then (l.indexOf x : Int) else -1

/-- The expression `childNodes[index]`: `none` (undefined) outside the bounds. -/
def childAt (l : List NodeId) (index : Int) : Option NodeId :=
  if index < 0 then none else l[index.toNat]?

/-- The loop of `getNodePath`: `none` when the fuel runs out before the loop ends. -/
def getNodePathLoop (dom : Dom) (editor : NodeId) : Nat → NodeId → List Int → Option (List Int)
  | fuel, current, path =>
    if current = editor then some path
    else
      match parentNode dom current with
      | none => some path
      | some parent =>
        match fuel with
        | 0 => none
        | fuel + 1 =>
          getNodePathLoop dom editor fuel parent (indexOf (childNodes dom parent) current :: path)

/-- The function `getNodePath`. A parent chain without a cycle is shorter than the
number of nodes, which is the fuel of the loop. -/
def getNodePath (dom : Dom) (editor : NodeId) (node : NodeId) : Option (List Int) :=
  getNodePathLoop dom editor dom.length node []

/-- The loop of `resolveNodePath`, from the node `current`. -/
def resolveNodePathFrom (dom : Dom) : NodeId → List Int → Option NodeId
  | current, [] => some current
  | current, index :: rest =>
    match childAt (childNodes dom current) index with
    | none => none
    | some child => resolveNodePathFrom dom child rest

/-- The function `resolveNodePath` (`none` is `null`). -/
def resolveNodePath (dom : Dom) (editor : NodeId) (path : List Int) : Option NodeId :=
  resolveNodePathFrom dom editor path

/-- Consistency of the parent pointers with the child lists, as the DOM maintains it:
a node is listed by its parent, a listed child points to the node that lists it, no
child is listed twice and the parent pointers form no cycle (some measure of depth
grows from every parent to its children). -/
def WellFormed (dom : Dom) : Prop :=
  (∀ c p, parentNode dom c = some p → c ∈ childNodes dom p) ∧
  (∀ p c, c ∈ childNodes dom p → parentNode dom c = some p) ∧
  (∀ p, (childNodes dom p).Nodup) ∧
  (∃ depth : NodeId → Nat, ∀ c p, parentNode dom c = some p → depth p < depth c)

/-- The same consistency, checked on the nodes of the store only, for a given measure
of depth. -/
def WellFormedBounded (dom : Dom) (depth : NodeId → Nat) : Prop :=
  (∀ c < dom.length, ∀ p ∈ (parentNode dom c).toList, c ∈ childNodes dom p) ∧
  (∀ p < dom.length, ∀ c ∈ childNodes dom p, parentNode dom c = some p) ∧
  (∀ p < dom.length, (childNodes dom p).Nodup) ∧
  (∀ c < dom.length, ∀ p ∈ (parentNode dom c).toList, depth p < depth c)

/-- The node `n` is `depth` levels below `a`: following the parent pointers from `n`
meets `a` for the first time after `depth` steps. -/
inductive DescendantAt (dom : Dom) (a : NodeId) : NodeId → Nat → Prop
  | self : DescendantAt dom a a 0
  | child {n p : NodeId} {d : Nat} : n ≠ a → parentNode dom n = some p →
      DescendantAt dom a p d → DescendantAt dom a n (d + 1)

/-- The node `n` is the node `a` or one of its descendants. -/
def IsDescendant (dom : Dom) (a n : NodeId) : Prop := ∃ d, DescendantAt dom a n d

/-- The walk of the path codec, as a relation: from `cur`, each element of the path in
turn indexes the children of the node reached so far. -/
inductive Walk (dom : Dom) : NodeId → List Int → NodeId → Prop
  | done (n : NodeId) : Walk dom n [] n
  | step {cur c n : NodeId} {i : Int} {rest : List Int} : 0 ≤ i →
      (childNodes dom cur)[i.toNat]? = some c → Walk dom c rest n →
      Walk dom cur (i :: rest) n

/-- Some element of the path is out of bounds at the node where the walk has arrived. -/
def OutOfBounds (dom : Dom) (root : NodeId) (path : List Int) : Prop :=
  ∃ pre i post cur, path = pre ++ i :: post ∧ Walk dom root pre cur ∧
    (i < 0 ∨ ((childNodes dom cur).length : Int) ≤ i)

instance (dom : Dom) (depth : NodeId → Nat) : Decidable (WellFormedBounded dom depth) := by
  unfold WellFormedBounded
  infer_instance

/-! ## DOM mutation -/

/-- Replace the node `n` of the store by `f` of it. -/
def modifyNode (dom : Dom) (n : NodeId) (f : DomNode → DomNode) : Dom :=
  match dom[n]? with
  | some x => dom.set n (f x)
  | none => dom

/-- The loop of `a.contains(n)`: follow the parent pointers from `n`, looking for `a`. -/
def containsLoop (dom : Dom) (a : NodeId) : Nat → NodeId → Bool
  | fuel, n =>
    if n = a then true
    else
      match parentNode dom n with
      | none => false
      | some p =>
        match fuel with
        | 0 => false
        | fuel + 1 => containsLoop dom a fuel p

/-- The method `a.contains(n)`: `n` is `a` or a descendant of `a`. -/
def contains (dom : Dom) (a n : NodeId) : Bool := containsLoop dom a dom.length n

/-- Assignment of the child list of the node `n`. -/
def setChildNodes (dom : Dom) (n : NodeId) (l : List NodeId) : Dom :=
  modifyNode dom n (fun x => { x with childNodes := l })

/-- Assignment of the parent pointer of the node `n`. -/
def setParentNode (dom : Dom) (n : NodeId) (p : Option NodeId) : Dom :=
  modifyNode dom n (fun x => { x with parentNode := p })

/-- The DOM "remove" step: take `node` out of the child list of its parent, if it has one. -/
def detach (dom : Dom) (node : NodeId) : Dom :=
  match parentNode dom node with
  | none => dom
  | some q => setParentNode (setChildNodes dom q ((childNodes dom q).erase node)) node none

/-- The list `l` with `node` put right before `ref`. -/
def insertBeforeIn (l : List NodeId) (node ref : NodeId) : List NodeId :=
  l.takeWhile (fun x => x ≠ ref) ++ node :: l.dropWhile (fun x => x ≠ ref)

/-- The method `parent.insertBefore(node, ref)`; `none` is an exception (`ref` is not a
child of `parent`, or `node` is `parent` or one of its ancestors). -/
def insertBefore (dom : Dom) (parent node ref : NodeId) : Option Dom :=
  if ref ∉ childNodes dom parent then none
  else if contains dom node parent then none
  else if node = ref then some dom
  else
    let dom1 := detach dom node
    let dom2 := setChildNodes dom1 parent (insertBeforeIn (childNodes dom1 parent) node ref)
    some (setParentNode dom2 node (some parent))

/-- The method `parent.removeChild(child)`; `none` is the exception for a node that is
not a child of `parent`. -/
def removeChild (dom : Dom) (parent child : NodeId) : Option Dom :=
  if child ∉ childNodes dom parent then none else some (detach dom child)

/-- The method `document.createElement`: the new node and the store that holds it. -/
def createElement (dom : Dom) (node : DomNode) : NodeId × Dom :=
  (dom.length, dom ++ [node])

/-- The nodes below `n` in document order (depth first, left to right). -/
def descendants (dom : Dom) : Nat → NodeId → List NodeId
  | 0, _ => []
  | fuel + 1, n =>
    (childNodes dom n).foldr (fun c acc => c :: (descendants dom fuel c ++ acc)) []

/-- Value of `node.dataset[key]` (`none` is undefined). -/
def datasetGet (dom : Dom) (n : NodeId) (key : String) : Option String :=
  match dom[n]? with
  | some x => (x.dataset.find? (fun kv => kv.1 = key)).map Prod.snd
  | none => none

/-- The assignment `dataset[key] = value` on an attribute list. -/
def setEntry (l : List (String × String)) (key value : String) : List (String × String) :=
  if l.any (fun kv => kv.1 = key) then l.map (fun kv => if kv.1 = key then (key, value) else kv)
  else l ++ [(key, value)]

/-- The assignment `node.dataset[key] = value`. -/
def datasetSet (dom : Dom) (n : NodeId) (key value : String) : Dom :=
  modifyNode dom n (fun x => { x with dataset := setEntry x.dataset key value })

/-- The statement `delete node.dataset[key]`. -/
def datasetDelete (dom : Dom) (n : NodeId) (key : String) : Dom :=
  modifyNode dom n (fun x => { x with dataset := x.dataset.filter (fun kv => kv.1 ≠ key) })

/-- The node is an element of class `tooltip-anchor`. -/
def isTooltipAnchor (dom : Dom) (n : NodeId) : Bool :=
  match dom[n]? with
  | some x => x.tag.isSome && decide ("tooltip-anchor" ∈ x.classList)
  | none => false

/-- The call `editor.querySelectorAll('.tooltip-anchor')`. -/
def tooltipAnchors (dom : Dom) (editor : NodeId) : List NodeId :=
  (descendants dom dom.length editor).filter (isTooltipAnchor dom)

/-! ## The page state -/

/-- A DOM range, with the properties the page reads. -/
structure Range where
  startContainer : NodeId
  startOffset : Nat
  endContainer : NodeId
  endOffset : Nat
  commonAncestorContainer : NodeId
deriving DecidableEq, Repr

/-- The property `range.collapsed`. -/
def Range.collapsed (r : Range) : Bool :=
  r.startContainer = r.endContainer && r.startOffset = r.endOffset

/-- The object that `storeCurrentSelection` serialises. -/
structure StoredRange where
  startContainerPath : List Int
  startOffset : Nat
  endContainerPath : List Int
  endOffset : Nat
deriving DecidableEq, Repr

/-- What the page takes from the browser without the source fixing its result.
`parse` is `JSON.parse` followed by the destructuring (`none` when that throws);
`selectRange` is the block from `document.createRange()` to `selection.addRange(range)`
(`none` when `setStart` or `setEnd` throws, otherwise the resulting first range of the
selection); `surround` is `range.extractContents()`, `wrapper.appendChild(fragment)` and
`range.insertNode(wrapper)` (`error` carries the DOM and the selection at the time of
the exception). -/
structure Browser where
  stringify : StoredRange → String
  parse : String → Option StoredRange
  selectRange : Dom → NodeId → Nat → NodeId → Nat → Option (Option Range)
  surround : Dom → Range → NodeId → Except (Dom × Option Range) Dom
  hasShowModal : Bool
  randomUUID : Nat → String

/-- One card of the tooltip panel. -/
structure TooltipCard where
  targetId : String
  badge : String
  preview : String
deriving DecidableEq, Repr

/-- State of the page: the DOM and the editor element, the first range of the window
selection (`none` when `rangeCount` is 0), the `tooltip-selection` item of the session
storage, and the interface around the editor (status line, history, panel, form). -/
structure State where
  dom : Dom
  editor : NodeId
  selection : Option Range
  snapshot : Option String
  status : Option (String × String)
  history : List String
  panel : List TooltipCard
  autoSave : Bool
  savePending : Bool
  uuidCount : Nat
  dialogReturnValue : String
  dialogOpen : Bool
  formEditing : String
  textInput : String
  iconInput : String

/-- The constant `maxHistoryEntries`. -/
def maxHistoryEntries : Nat := 25

/-- The function `notify`: message and tone of the status line. -/
def notify (s : State) (message tone : String) : State :=
  { s with status := some (message, tone) }

/-- The function `recordHistory`: the new entry goes first, the list keeps its 25 newest
entries; the entry draws one UUID. -/
def recordHistory (s : State) (label : String) : State :=
  { s with history := (label :: s.history).take maxHistoryEntries,
           uuidCount := s.uuidCount + 1 }

/-- The function `scheduleSave`. -/
def scheduleSave (s : State) : State :=
  if s.autoSave then { s with savePending := true } else s

/-- One step of the `forEach` of `updateTooltipsPanel`. -/
def updateTooltipCard (b : Browser) (acc : Dom × Nat × List TooltipCard) (anchor : NodeId) :
    Dom × Nat × List TooltipCard :=
  let dom := acc.1
  let count := acc.2.1
  let cards := acc.2.2
  let existing := (datasetGet dom anchor "tooltipId").getD ""
  let targetId := if existing = "" then b.randomUUID count else existing
  let count1 := if existing = "" then count + 1 else count
  let icon := (datasetGet dom anchor "icon").getD ""
  let badge := (if icon = "" then "💬" else icon) ++ " Tooltip " ++ toString (cards.length + 1)
  let preview := (datasetGet dom anchor "tooltip").getD ""
  (datasetSet dom anchor "tooltipId" targetId, count1,
    cards ++ [{ targetId := targetId, badge := badge, preview := preview }])

/-- The function `updateTooltipsPanel`. -/
def updateTooltipsPanel (b : Browser) (s : State) : State :=
  let r := (tooltipAnchors s.dom s.editor).foldl (updateTooltipCard b) (s.dom, s.uuidCount, [])
  { s with dom := r.1, uuidCount := r.2.1, panel := r.2.2 }

/-- The loop `while (anchor.firstChild) parent.insertBefore(anchor.firstChild, anchor)`;
`none` when an insertion throws or the fuel runs out. -/
def unwrapLoop (parent anchor : NodeId) : Nat → Dom → Option Dom
  | fuel, dom =>
    match childNodes dom anchor with
    | [] => some dom
    | first :: _ =>
      match fuel with
      | 0 => none
      | fuel + 1 =>
        match insertBefore dom parent first anchor with
        | none => none
        | some dom1 => unwrapLoop parent anchor fuel dom1

/-- The function `removeTooltip`; `none` is an exception. Each turn of the loop moves
one child out of the anchor, so the number of its children is the fuel. -/
def removeTooltip (b : Browser) (s : State) (anchor : NodeId) : Option State :=
  match parentNode s.dom anchor with
  | none => none
  | some parent =>
    match unwrapLoop parent anchor (childNodes s.dom anchor).length s.dom with
    | none => none
    | some dom1 =>
      match removeChild dom1 parent anchor with
      | none => none
      | some dom2 =>
        some (scheduleSave (updateTooltipsPanel b
          (recordHistory { s with dom := dom2 } "Tooltip removida")))

/-! ## Selection guard, tooltip creation, selection bridge, dialog -/

/-- The function `withSelectionGuard`; the callback receives the range and the state. -/
def withSelectionGuard {α : Type} (s : State) (callback : Range → State → Option α × State) :
    Option α × State :=
  match s.selection with
  | none => (none, notify s "Selecione um trecho do texto primeiro." "warning")
  | some range =>
    if contains s.dom s.editor range.commonAncestorContainer then callback range s
    else (none, notify s "A seleção precisa estar dentro do editor." "warning")

/-- The `span` that `wrapSelectionWithTooltip` creates and fills in before it touches
the document. -/
def tooltipWrapper (tooltipText tooltipIcon : String) : DomNode :=
  { parentNode := none, childNodes := [], tag := some "span", nodeValue := "",
    classList := ["tooltip-anchor"],
    dataset :=
      if jsTrim tooltipIcon = "" then [("tooltip", jsTrim tooltipText)]
      else [("tooltip", jsTrim tooltipText), ("icon", jsTrim tooltipIcon)],
    tabIndex := some 0 }

/-- The function `wrapSelectionWithTooltip`: the new anchor (`none` is `null`) and the
state after the call. -/
def wrapSelectionWithTooltip (b : Browser) (s : State) (tooltipText tooltipIcon : String) :
    Option NodeId × State :=
  withSelectionGuard s (fun range s =>
    if range.collapsed then
      (none, notify s "Selecione o texto que deseja anotar." "warning")
    else
      let created := createElement s.dom (tooltipWrapper tooltipText tooltipIcon)
      let wrapper := created.1
      match b.surround created.2 range wrapper with
      | .error failed =>
        (none, notify { s with dom := failed.1, selection := failed.2 }
          "Não foi possível adicionar a tooltip à seleção." "warning")
      | .ok dom2 =>
        let newRange : Range :=
          { startContainer := wrapper, startOffset := 0, endContainer := wrapper,
            endOffset := (childNodes dom2 wrapper).length,
            commonAncestorContainer := wrapper }
        (some wrapper,
          scheduleSave (recordHistory
            (updateTooltipsPanel b { s with dom := dom2, selection := some newRange })
            "Tooltip adicionada ao texto selecionado")))

/-- The function `storeCurrentSelection`; `none` when a `getNodePath` loop does not end. -/
def storeCurrentSelection (b : Browser) (s : State) : Option State :=
  match s.selection with
  | none => some s
  | some range =>
    match getNodePath s.dom s.editor range.startContainer,
          getNodePath s.dom s.editor range.endContainer with
    | some startPath, some endPath =>
      some { s with snapshot := some (b.stringify
        { startContainerPath := startPath, startOffset := range.startOffset,
          endContainerPath := endPath, endOffset := range.endOffset }) }
    | _, _ => none

/-- The function `restoreSelection`. The test `!stored` holds for a missing item and for
the empty string; past it, the `finally` block removes the item on every path. -/
def restoreSelection (b : Browser) (s : State) : State :=
  match s.snapshot with
  | none => s
  | some stored =>
    if stored = "" then s
    else
      let cleared := { s with snapshot := none }
      match b.parse stored with
      | none => cleared
      | some r =>
        match resolveNodePath s.dom s.editor r.startContainerPath,
              resolveNodePath s.dom s.editor r.endContainerPath with
        | some startNode, some endNode =>
          match b.selectRange s.dom startNode r.startOffset endNode r.endOffset with
          | none => cleared
          | some selected => { cleared with selection := selected }
        | _, _ => cleared

/-- The assignments to `anchor.dataset.tooltip` and `anchor.dataset.icon` of the two
editing paths, followed by their history entry, notice, panel refresh and save request. -/
def updateAnchor (b : Browser) (s : State) (anchor : NodeId) (tooltipText tooltipIcon : String) :
    State :=
  let dom1 := datasetSet s.dom anchor "tooltip" tooltipText
  let dom2 :=
    if tooltipIcon = "" then datasetDelete dom1 anchor "icon"
    else datasetSet dom1 anchor "icon" tooltipIcon
  scheduleSave (updateTooltipsPanel b
    (notify (recordHistory { s with dom := dom2 } "Tooltip atualizada")
      "Tooltip atualizada com sucesso." "success"))

/-- The creation path shared by the prompt fallback and the dialog: `restoreSelection`,
`wrapSelectionWithTooltip`, and the notice when an anchor was created. -/
def createAnchor (b : Browser) (s : State) (tooltipText tooltipIcon : String) : State :=
  let r := wrapSelectionWithTooltip b (restoreSelection b s) tooltipText tooltipIcon
  match r.1 with
  | some _ => notify r.2 "Tooltip criada com sucesso." "success"
  | none => r.2

/-- The function `openTooltipDialog`. `anchor` is `none` for a new tooltip; `promptText`
and `promptIcon` are the answers of the two `prompt` calls of the fallback (`none` is
`null`). The result is `none` when `storeCurrentSelection` does not end. -/
def openTooltipDialog (b : Browser) (s : State) (anchor : Option NodeId)
    (promptText promptIcon : Option String) : Option State :=
  let s1 : State :=
    match anchor with
    | some a =>
      { s with dialogReturnValue := "",
               formEditing := (datasetGet s.dom a "tooltipId").getD "undefined",
               textInput := (datasetGet s.dom a "tooltip").getD "undefined",
               iconInput := (datasetGet s.dom a "icon").getD "" }
    | none => { s with dialogReturnValue := "", formEditing := "", textInput := "", iconInput := "" }
  let stored : Option State :=
    match anchor with
    | some _ => some s1
    | none => storeCurrentSelection b s1
  match stored with
  | none => none
  | some s2 =>
    if b.hasShowModal then some { s2 with dialogOpen := true }
    else
      match promptText with
      | none => some (notify s2 "Tooltip cancelada." "info")
      | some tooltipText =>
        if tooltipText = "" then some (notify s2 "Tooltip cancelada." "info")
        else
          let tooltipIcon := promptIcon.getD ""
          match anchor with
          | some a => some (updateAnchor b s2 a tooltipText tooltipIcon)
          | none => some (createAnchor b s2 tooltipText tooltipIcon)

/-- The call `` editor.querySelector(`.tooltip-anchor[data-tooltip-id="${editingId}"]`) ``
for an identifier that needs no escaping in the selector. -/
def findAnchor (dom : Dom) (editor : NodeId) (editingId : String) : Option NodeId :=
  (tooltipAnchors dom editor).find? (fun a => datasetGet dom a "tooltipId" = some editingId)

/-- The `close` handler of the tooltip dialog. -/
def tooltipDialogClose (b : Browser) (s : State) : State :=
  let s0 := { s with dialogOpen := false }
  if s0.dialogReturnValue ≠ "confirm" then restoreSelection b s0
  else
    let tooltipText := jsTrim s0.textInput
    let tooltipIcon := jsTrim s0.iconInput
    if tooltipText = "" then
      restoreSelection b (notify s0 "Informe um texto para a tooltip." "warning")
    else if s0.formEditing ≠ "" then
      match findAnchor s0.dom s0.editor s0.formEditing with
      | some anchor => updateAnchor b s0 anchor tooltipText tooltipIcon
      | none => s0
    else createAnchor b s0 tooltipText tooltipIcon

/-- A text node of the sample page. -/
def sampleText (parent : NodeId) (value : String) : DomNode :=
  { parentNode := some parent, childNodes := [], tag := none, nodeValue := value,
    classList := [], dataset := [], tabIndex := none }

/-- An element of the sample page, without class or data attributes. -/
def sampleElement (parent : Option NodeId) (tag : String) (childNodes : List NodeId) : DomNode :=
  { parentNode := parent, childNodes := childNodes, tag := some tag, nodeValue := "",
    classList := [], dataset := [], tabIndex := none }

/-- The page of the examples. The document (node 0) holds `html` (1) with `head` (2) and
`body` (3); the body holds the editor `div` (6) and, after it, a heading `h2` (4) with
the text "History" (5). The editor holds a list `ul` (7) with the items 8 (text 10,
"one") and 9, whose children are the text 13, the tooltip marker 11 around the text 12
("second item"), and the text 14. -/
def samplePage : Dom :=
  [ { parentNode := none, childNodes := [1], tag := none, nodeValue := "",
      classList := [], dataset := [], tabIndex := none },
    sampleElement (some 0) "html" [2, 3],
    sampleElement (some 1) "head" [],
    sampleElement (some 1) "body" [6, 4],
    sampleElement (some 3) "h2" [5],
    sampleText 4 "History",
    sampleElement (some 3) "div" [7],
    sampleElement (some 6) "ul" [8, 9],
    sampleElement (some 7) "li" [10],
    sampleElement (some 7) "li" [13, 11, 14],
    sampleText 8 "one",
    { parentNode := some 9, childNodes := [12], tag := some "span", nodeValue := "",
      classList := ["tooltip-anchor"], dataset := [("tooltip", "greeting")],
      tabIndex := some 0 },
    sampleText 11 "second item",
    sampleText 9 "the ",
    sampleText 9 " here" ]

/-- Depth of the nodes of the sample page below the document. -/
def sampleDepth : NodeId → Nat
  | 0 => 0
  | 1 => 1
  | 2 => 2
  | 3 => 2
  | 4 => 3
  | 5 => 4
  | 6 => 3
  | 7 => 4
  | 8 => 5
  | 9 => 5
  | 12 => 7
  | _ => 6

/-- A browser for the examples: no `showModal`, a serialisation that lists the four
fields, a parser that rejects everything, and range operations that always succeed. -/
def sampleBrowser : Browser where
  stringify := fun r =>
    "[" ++ toString r.startContainerPath ++ "," ++ toString r.startOffset ++ "," ++
      toString r.endContainerPath ++ "," ++ toString r.endOffset ++ "]"
  parse := fun _ => none
  selectRange := fun _ sn so en eo =>
    some (some { startContainer := sn, startOffset := so, endContainer := en,
                 endOffset := eo, commonAncestorContainer := sn })
  surround := fun dom _ _ => .ok dom
  hasShowModal := false
  randomUUID := fun n => "uuid-" ++ toString n

/-- The sample page with its editor, no selection and no snapshot. -/
def sampleState : State where
  dom := samplePage
  editor := 6
  selection := none
  snapshot := none
  status := none
  history := []
  panel := []
  autoSave := false
  savePending := false
  uuidCount := 0
  dialogReturnValue := ""
  dialogOpen := false
  formEditing := ""
  textInput := ""
  iconInput := ""

/-- The range that covers the seven characters of the heading text (node 5). -/
def headingRange : Range :=
  { startContainer := 5, startOffset := 0, endContainer := 5, endOffset := 7,
    commonAncestorContainer := 5 }

/-- The sample page with the heading text selected: a selection outside the editor. -/
def outsideState : State := { sampleState with selection := some headingRange }

/-- A caret after the second character of the text "one" (node 10). -/
def caretRange : Range :=
  { startContainer := 10, startOffset := 2, endContainer := 10, endOffset := 2,
    commonAncestorContainer := 10 }

/-- The sample page with a collapsed selection (a caret) inside the editor. -/
def caretState : State := { sampleState with selection := some caretRange }

/-- An ordered list with the two items "A" and "B". -/
def orderedListAB : HNode :=
  .element "ol" [] [] [.element "li" [] [] [.text "A"], .element "li" [] [] [.text "B"]]

/-- A level-1 heading that starts with a line break: the tree of `<h1><br>Title</h1>`. -/
def headingWithBreak : HNode :=
  .element "h1" [] [] [.element "br" [] [] [], .text "Title"]

/-- The same content in a paragraph: the tree of `<p><br>Title</p>`. -/
def paragraphWithBreak : HNode :=
  .element "p" [] [] [.element "br" [] [] [], .text "Title"]

/-- Reading `l` after `n` newline characters in a row, no run of newlines reaches three
characters. -/
def ShortNewlineRuns : Nat → List Char → Prop
  | _, [] => True
  | n, c :: cs => if c = '\n' then n < 2 ∧ ShortNewlineRuns (n + 1) cs else ShortNewlineRuns 0 cs

/-- A document whose rendering has a run of four newlines and white space at both ends:
an empty paragraph, the paragraph "a", an empty paragraph, the paragraph "b" and a
text node that holds one space. -/
def spacedDocument : List HNode :=
  [ .element "p" [] [] [], .element "p" [] [] [.text "a"], .element "p" [] [] [],
    .element "p" [] [] [.text "b"], .text " " ]

/-! # Theorems -/

/-! ## Lemmas on the DOM -/

theorem parentNode_lt {dom : Dom} {n p : NodeId} (h : parentNode dom n = some p) :
    n < dom.length := by
  by_contra hlt
  have : dom[n]? = none := List.getElem?_eq_none (Nat.le_of_not_lt hlt)
  simp [parentNode, this] at h

theorem childNodes_of_ge {dom : Dom} {n : NodeId} (h : dom.length ≤ n) :
    childNodes dom n = [] := by
  simp [childNodes, List.getElem?_eq_none h]

theorem wellFormed_of_bounded {dom : Dom} (depth : NodeId → Nat)
    (h : WellFormedBounded dom depth) : WellFormed dom := by
  obtain ⟨h1, h2, h3, h4⟩ := h
  refine ⟨?_, ?_, ?_, ?_⟩
  · intro c p hp
    exact h1 c (parentNode_lt hp) p (by simp [hp])
  · intro p c hc
    by_cases hlt : p < dom.length
    · exact h2 p hlt c hc
    · simp [childNodes_of_ge (Nat.le_of_not_lt hlt)] at hc
  · intro p
    by_cases hlt : p < dom.length
    · exact h3 p hlt
    · simp [childNodes_of_ge (Nat.le_of_not_lt hlt)]
  · exact ⟨depth, fun c p hp => h4 c (parentNode_lt hp) p (by simp [hp])⟩

theorem childAt_indexOf {l : List NodeId} {x : NodeId} (h : x ∈ l) :
    childAt l (indexOf l x) = some x := by
  have hlt : l.indexOf x < l.length := List.indexOf_lt_length.mpr h
  simp only [childAt, indexOf, h, if_true]
  have hnn : ¬ ((l.indexOf x : Int) < 0) := by omega
  simp only [hnn, if_false, Int.toNat_ofNat]
  rw [List.getElem?_eq_getElem hlt]
  simp

theorem descendantAt_depth_unique {dom : Dom} {a n : NodeId} {d e : Nat}
    (h1 : DescendantAt dom a n d) (h2 : DescendantAt dom a n e) : d = e := by
  induction h1 generalizing e with
  | self =>
    cases h2 with
    | self => rfl
    | child hne _ _ => exact absurd rfl hne
  | child hne hp _ ih =>
    cases h2 with
    | self => exact absurd rfl hne
    | child _ hp2 h2 =>
      rw [hp] at hp2
      cases hp2
      rw [ih h2]

/-- The nodes strictly below `a` on the parent chain of a descendant are pairwise
different nodes of the store. -/
theorem descendantAt_chain {dom : Dom} {a n : NodeId} {d : Nat}
    (h : DescendantAt dom a n d) :
    ∃ l : List NodeId, l.length = d ∧ l.Nodup ∧ (∀ x ∈ l, x < dom.length) ∧
      (∀ x ∈ l, ∃ k, k ≤ d ∧ DescendantAt dom a x k) := by
  induction h with
  | self => exact ⟨[], rfl, List.nodup_nil, by simp, by simp⟩
  | @child n p d hne hp hd ih =>
    obtain ⟨l, hlen, hnd, hlt, hk⟩ := ih
    refine ⟨n :: l, by simp [hlen], ?_, ?_, ?_⟩
    · refine List.nodup_cons.mpr ⟨?_, hnd⟩
      intro hmem
      obtain ⟨k, hkd, hkc⟩ := hk n hmem
      have := descendantAt_depth_unique hkc (DescendantAt.child hne hp hd)
      omega
    · intro x hx
      rcases List.mem_cons.mp hx with rfl | hx
      · exact parentNode_lt hp
      · exact hlt x hx
    · intro x hx
      rcases List.mem_cons.mp hx with rfl | hx
      · exact ⟨d + 1, le_refl _, DescendantAt.child hne hp hd⟩
      · obtain ⟨k, hkd, hkc⟩ := hk x hx
        exact ⟨k, by omega, hkc⟩

theorem descendantAt_depth_le {dom : Dom} {a n : NodeId} {d : Nat}
    (h : DescendantAt dom a n d) : d ≤ dom.length := by
  obtain ⟨l, hlen, hnd, hlt, _⟩ := descendantAt_chain h
  have hsub : l ⊆ List.range dom.length := fun x hx => List.mem_range.mpr (hlt x hx)
  have := (List.subperm_of_subset hnd hsub).length_le
  simpa [hlen] using this

/-- The loop of `getNodePath` ends with enough fuel, and prepends to the path the
indices that lead from the editor down to the node it started from. -/
theorem getNodePathLoop_resolve {dom : Dom} {editor : NodeId}
    (hpc : ∀ c p, parentNode dom c = some p → c ∈ childNodes dom p)
    {n : NodeId} {d : Nat} (h : DescendantAt dom editor n d) :
    ∀ (fuel : Nat) (acc : List Int) (target : NodeId), d ≤ fuel →
      resolveNodePathFrom dom n acc = some target →
      ∃ path, getNodePathLoop dom editor fuel n acc = some path ∧
        resolveNodePathFrom dom editor path = some target := by
  induction h with
  | self =>
    intro fuel acc target _ hres
    refine ⟨acc, ?_, hres⟩
    unfold getNodePathLoop
    simp
  | @child n p d hne hp _ ih =>
    intro fuel acc target hfuel hres
    obtain ⟨f, rfl⟩ : ∃ f, fuel = f + 1 := ⟨fuel - 1, by omega⟩
    have hstep : resolveNodePathFrom dom p (indexOf (childNodes dom p) n :: acc)
        = some target := by
      simp only [resolveNodePathFrom, childAt_indexOf (hpc n p hp)]
      exact hres
    obtain ⟨path, hpath, hr⟩ := ih f _ target (by omega) hstep
    refine ⟨path, ?_, hr⟩
    unfold getNodePathLoop
    simp only [hne, if_false, hp]
    exact hpath

/-- C1. Path codec round trip: in a well-formed DOM, for every node `n` that is the
editor or one of its descendants, `getNodePath` returns a path and `resolveNodePath`
applied to that path (on the same, unmodified DOM) returns `n` itself. The offset of a
position is stored next to the path and is not touched by the codec. -/
theorem resolveNodePath_getNodePath (dom : Dom) (editor n : NodeId)
    (hwf : WellFormed dom) (hn : IsDescendant dom editor n) :
    ∃ path, getNodePath dom editor n = some path ∧
      resolveNodePath dom editor path = some n := by
  obtain ⟨d, hd⟩ := hn
  exact getNodePathLoop_resolve hwf.1 hd dom.length [] n (descendantAt_depth_le hd) rfl

theorem resolveNodePath_getNodePath_witness :
    WellFormed samplePage ∧ IsDescendant samplePage 6 12 ∧
      ∃ path, getNodePath samplePage 6 12 = some path ∧
        resolveNodePath samplePage 6 path = some 12 :=
  have hwf : WellFormed samplePage := wellFormed_of_bounded sampleDepth (by decide)
  have hd : IsDescendant samplePage 6 12 :=
    ⟨4, .child (by decide) (by decide : parentNode samplePage 12 = some 11)
      (.child (by decide) (by decide : parentNode samplePage 11 = some 9)
        (.child (by decide) (by decide : parentNode samplePage 9 = some 7)
          (.child (by decide) (by decide : parentNode samplePage 7 = some 6) .self)))⟩
  ⟨hwf, hd, resolveNodePath_getNodePath samplePage 6 12 hwf hd⟩

theorem childAt_eq_some {l : List NodeId} {i : Int} {c : NodeId} :
    childAt l i = some c ↔ 0 ≤ i ∧ l[i.toNat]? = some c := by
  unfold childAt
  by_cases h : i < 0
  · simp only [h, if_true]
    constructor
    · intro h'
      cases h'
    · rintro ⟨h0, _⟩
      omega
  · simp only [h, if_false]
    constructor
    · intro h'
      exact ⟨by omega, h'⟩
    · rintro ⟨_, h'⟩
      exact h'

theorem childAt_eq_none {l : List NodeId} {i : Int} :
    childAt l i = none ↔ i < 0 ∨ (l.length : Int) ≤ i := by
  unfold childAt
  by_cases h : i < 0
  · simp [h]
  · simp only [h, if_false, false_or, List.getElem?_eq_none_iff]
    omega

theorem resolveNodePathFrom_eq_some {dom : Dom} {path : List Int} :
    ∀ {cur n : NodeId}, resolveNodePathFrom dom cur path = some n ↔ Walk dom cur path n := by
  induction path with
  | nil =>
    intro cur n
    constructor
    · intro h
      simp only [resolveNodePathFrom, Option.some.injEq] at h
      subst h
      exact Walk.done _
    · intro h
      cases h
      rfl
  | cons i rest ih =>
    intro cur n
    constructor
    · intro h
      simp only [resolveNodePathFrom] at h
      cases hc : childAt (childNodes dom cur) i with
      | none => simp [hc] at h
      | some c =>
        simp only [hc] at h
        obtain ⟨h0, hget⟩ := childAt_eq_some.mp hc
        exact Walk.step h0 hget (ih.mp h)
    · intro h
      cases h with
      | step h0 hget hw =>
        simp only [resolveNodePathFrom, childAt_eq_some.mpr ⟨h0, hget⟩]
        exact ih.mpr hw

theorem resolveNodePathFrom_eq_none {dom : Dom} {path : List Int} :
    ∀ {cur : NodeId}, resolveNodePathFrom dom cur path = none ↔ OutOfBounds dom cur path := by
  induction path with
  | nil =>
    intro cur
    constructor
    · intro h
      simp [resolveNodePathFrom] at h
    · rintro ⟨pre, i, post, c, hp, _, _⟩
      simp at hp
  | cons i rest ih =>
    intro cur
    constructor
    · intro h
      simp only [resolveNodePathFrom] at h
      cases hc : childAt (childNodes dom cur) i with
      | none =>
        exact ⟨[], i, rest, cur, rfl, Walk.done _, childAt_eq_none.mp hc⟩
      | some c =>
        simp only [hc] at h
        obtain ⟨pre, j, post, m, hp, hw, hb⟩ := ih.mp h
        obtain ⟨h0, hget⟩ := childAt_eq_some.mp hc
        exact ⟨i :: pre, j, post, m, by simp [hp], Walk.step h0 hget hw, hb⟩
    · rintro ⟨pre, j, post, m, hp, hw, hb⟩
      cases pre with
      | nil =>
        simp only [List.nil_append, List.cons.injEq] at hp
        obtain ⟨rfl, rfl⟩ := hp
        cases hw
        simp only [resolveNodePathFrom, childAt_eq_none.mpr hb]
      | cons k pre =>
        simp only [List.cons_append, List.cons.injEq] at hp
        obtain ⟨rfl, rfl⟩ := hp
        cases hw with
        | step h0 hget hw =>
          simp only [resolveNodePathFrom, childAt_eq_some.mpr ⟨h0, hget⟩]
          exact ih.mpr ⟨pre, j, post, m, rfl, hw, hb⟩

/-- C2. For every DOM and every path, `resolveNodePath` returns the node `n` exactly when
the walk from the editor root, indexing the children of the current node with each path
element in turn, arrives at `n`, and returns `null` exactly when some element is out of
bounds (negative, or not below the number of children) at the node reached by the
elements before it. The function only reads the DOM: its single result is the node. -/
theorem resolveNodePath_walk (dom : Dom) (editor : NodeId) (path : List Int) :
    (∀ n, resolveNodePath dom editor path = some n ↔ Walk dom editor path n) ∧
    (resolveNodePath dom editor path = none ↔ OutOfBounds dom editor path) :=
  ⟨fun _ => resolveNodePathFrom_eq_some, resolveNodePathFrom_eq_none⟩

/-! ## Effect of the DOM mutations on parent pointers and child lists -/

theorem getElem?_modifyNode (dom : Dom) (n x : NodeId) (f : DomNode → DomNode) :
    (modifyNode dom n f)[x]? = if x = n then (dom[n]?).map f else dom[x]? := by
  unfold modifyNode
  cases h : dom[n]? with
  | none =>
    by_cases hx : x = n
    · subst hx
      simp [h]
    · simp [hx]
  | some y =>
    have hlt : n < dom.length := by
      by_contra hge
      rw [List.getElem?_eq_none (Nat.le_of_not_lt hge)] at h
      cases h
    by_cases hx : x = n
    · subst hx
      simp [List.getElem?_set, hlt]
    · have hne : n ≠ x := fun e => hx e.symm
      simp [List.getElem?_set_ne hne, hx]

theorem length_modifyNode (dom : Dom) (n : NodeId) (f : DomNode → DomNode) :
    (modifyNode dom n f).length = dom.length := by
  unfold modifyNode
  cases dom[n]? <;> simp

theorem getElem?_of_lt {dom : Dom} {n : NodeId} (h : n < dom.length) :
    ∃ y, dom[n]? = some y := ⟨dom[n], List.getElem?_eq_getElem h⟩

theorem childNodes_setChildNodes (dom : Dom) (n x : NodeId) (l : List NodeId)
    (hn : n < dom.length) :
    childNodes (setChildNodes dom n l) x = if x = n then l else childNodes dom x := by
  obtain ⟨y, hy⟩ := getElem?_of_lt hn
  unfold childNodes setChildNodes
  rw [getElem?_modifyNode]
  by_cases hx : x = n
  · simp [hx, hy]
  · simp [hx]

theorem parentNode_setChildNodes (dom : Dom) (n x : NodeId) (l : List NodeId) :
    parentNode (setChildNodes dom n l) x = parentNode dom x := by
  unfold parentNode setChildNodes
  rw [getElem?_modifyNode]
  by_cases hx : x = n
  · subst hx
    cases dom[x]? <;> simp
  · simp [hx]

theorem childNodes_setParentNode (dom : Dom) (n x : NodeId) (p : Option NodeId) :
    childNodes (setParentNode dom n p) x = childNodes dom x := by
  unfold childNodes setParentNode
  rw [getElem?_modifyNode]
  by_cases hx : x = n
  · subst hx
    cases dom[x]? <;> simp
  · simp [hx]

theorem parentNode_setParentNode (dom : Dom) (n x : NodeId) (p : Option NodeId)
    (hn : n < dom.length) :
    parentNode (setParentNode dom n p) x = if x = n then p else parentNode dom x := by
  obtain ⟨y, hy⟩ := getElem?_of_lt hn
  unfold parentNode setParentNode
  rw [getElem?_modifyNode]
  by_cases hx : x = n
  · simp [hx, hy]
  · simp [hx]

theorem length_setChildNodes (dom : Dom) (n : NodeId) (l : List NodeId) :
    (setChildNodes dom n l).length = dom.length := length_modifyNode _ _ _

theorem length_setParentNode (dom : Dom) (n : NodeId) (p : Option NodeId) :
    (setParentNode dom n p).length = dom.length := length_modifyNode _ _ _

theorem childNodes_lt {dom : Dom} {p c : NodeId} (h : c ∈ childNodes dom p) :
    p < dom.length := by
  by_contra hlt
  simp [childNodes_of_ge (Nat.le_of_not_lt hlt)] at h

theorem length_detach (dom : Dom) (node : NodeId) : (detach dom node).length = dom.length := by
  unfold detach
  cases parentNode dom node with
  | none => rfl
  | some q => simp [length_setParentNode, length_setChildNodes]

theorem parentNode_detach {dom : Dom} {node q : NodeId} (hq : parentNode dom node = some q)
    (x : NodeId) :
    parentNode (detach dom node) x = if x = node then none else parentNode dom x := by
  unfold detach
  simp only [hq]
  rw [parentNode_setParentNode _ _ _ _ (by rw [length_setChildNodes]; exact parentNode_lt hq)]
  simp [parentNode_setChildNodes]

theorem childNodes_detach {dom : Dom} {node q : NodeId} (hq : parentNode dom node = some q)
    (hmem : node ∈ childNodes dom q) (x : NodeId) :
    childNodes (detach dom node) x =
      if x = q then (childNodes dom q).erase node else childNodes dom x := by
  unfold detach
  simp only [hq]
  rw [childNodes_setParentNode, childNodes_setChildNodes _ _ _ _ (childNodes_lt hmem)]

theorem containsLoop_depth {dom : Dom} {depth : NodeId → Nat}
    (hd : ∀ c p, parentNode dom c = some p → depth p < depth c) (a : NodeId) :
    ∀ (fuel : Nat) (n : NodeId), containsLoop dom a fuel n = true → depth a ≤ depth n := by
  intro fuel
  induction fuel with
  | zero =>
    intro n h
    unfold containsLoop at h
    by_cases hn : n = a
    · rw [hn]
    · simp only [hn, if_false] at h
      cases hp : parentNode dom n with
      | none => simp [hp] at h
      | some p => simp [hp] at h
  | succ f ih =>
    intro n h
    unfold containsLoop at h
    by_cases hn : n = a
    · rw [hn]
    · simp only [hn, if_false] at h
      cases hp : parentNode dom n with
      | none => simp [hp] at h
      | some p =>
        simp only [hp] at h
        have := ih p h
        have := hd n p hp
        omega

theorem contains_eq_false {dom : Dom} {depth : NodeId → Nat}
    (hd : ∀ c p, parentNode dom c = some p → depth p < depth c) {a n : NodeId}
    (h : depth n < depth a) : contains dom a n = false := by
  cases hc : contains dom a n with
  | false => rfl
  | true =>
    have := containsLoop_depth hd a _ _ hc
    omega

/-- Effect of a successful `insertBefore` of a node that is a child of another parent. -/
theorem insertBefore_spec {dom : Dom} {parent node ref q : NodeId}
    (href : ref ∈ childNodes dom parent) (hcont : contains dom node parent = false)
    (hne : node ≠ ref) (hq : parentNode dom node = some q) (hmem : node ∈ childNodes dom q)
    (hqp : q ≠ parent) :
    ∃ dom1, insertBefore dom parent node ref = some dom1 ∧
      dom1.length = dom.length ∧
      (∀ x, parentNode dom1 x = if x = node then some parent else parentNode dom x) ∧
      (∀ x, childNodes dom1 x =
        if x = parent then insertBeforeIn (childNodes dom parent) node ref
        else if x = q then (childNodes dom q).erase node else childNodes dom x) := by
  have hnode : node < dom.length := parentNode_lt hq
  have hparent : parent < dom.length := childNodes_lt href
  refine ⟨setParentNode (setChildNodes (detach dom node) parent
    (insertBeforeIn (childNodes (detach dom node) parent) node ref)) node (some parent),
    ?_, ?_, ?_, ?_⟩
  · unfold insertBefore
    simp [href, hcont, hne]
  · simp [length_setParentNode, length_setChildNodes, length_detach]
  · intro x
    rw [parentNode_setParentNode _ _ _ _ (by
      rw [length_setChildNodes, length_detach]; exact hnode)]
    by_cases hx : x = node
    · simp [hx]
    · simp [hx, parentNode_setChildNodes, parentNode_detach hq]
  · intro x
    rw [childNodes_setParentNode, childNodes_setChildNodes _ _ _ _ (by
      rw [length_detach]; exact hparent)]
    by_cases hx : x = parent
    · have hpq : parent ≠ q := fun e => hqp e.symm
      simp [hx, childNodes_detach hq hmem, hpq]
    · simp [hx, childNodes_detach hq hmem]

theorem insertBeforeIn_append {A B : List NodeId} {node ref : NodeId} (h : ref ∉ A) :
    insertBeforeIn (A ++ ref :: B) node ref = A ++ node :: ref :: B := by
  unfold insertBeforeIn
  have hA : ∀ a ∈ A, (decide (a ≠ ref)) = true := by
    intro a ha
    have : a ≠ ref := fun e => h (e ▸ ha)
    simpa using this
  rw [List.takeWhile_append_of_pos hA, List.dropWhile_append_of_pos hA]
  simp

/-- The loop of `removeTooltip` moves the children of the anchor, in order, right before
the anchor in the child list of its parent, and leaves the anchor without children. -/
theorem unwrapLoop_spec (p m : NodeId) (depth : NodeId → Nat) (B : List NodeId) :
    ∀ (C A : List NodeId) (dom : Dom) (fuel : Nat), C.length ≤ fuel →
      childNodes dom p = A ++ m :: B → childNodes dom m = C →
      parentNode dom m = some p → (∀ c ∈ C, parentNode dom c = some m) →
      C.Nodup → m ∉ A →
      (∀ c x, parentNode dom c = some x → depth x < depth c) →
      ∃ dom1, unwrapLoop p m fuel dom = some dom1 ∧
        childNodes dom1 p = A ++ C ++ m :: B ∧
        childNodes dom1 m = [] ∧
        (∀ x, parentNode dom1 x = if x ∈ C then some p else parentNode dom x) ∧
        (∀ x, x ≠ p → x ≠ m → childNodes dom1 x = childNodes dom x) := by
  intro C
  induction C with
  | nil =>
    intro A dom fuel _ hp hm _ _ _ _ _
    refine ⟨dom, ?_, by simpa using hp, hm, by simp, fun _ _ _ => rfl⟩
    unfold unwrapLoop
    simp [hm]
  | cons c C ih =>
    intro A dom fuel hfuel hp hm hmp hC hnd hmA hd
    obtain ⟨f, rfl⟩ : ∃ f, fuel = f + 1 := ⟨fuel - 1, by simp at hfuel; omega⟩
    have hcm : parentNode dom c = some m := hC c (List.mem_cons_self _ _)
    have hdpm : depth p < depth m := hd m p hmp
    have hdmc : depth m < depth c := hd c m hcm
    have hne_mp : m ≠ p := fun e => by rw [e] at hdpm; omega
    have hne_cm : c ≠ m := fun e => by rw [e] at hdmc; omega
    have href : m ∈ childNodes dom p := by rw [hp]; simp
    have hmem : c ∈ childNodes dom m := by rw [hm]; simp
    obtain ⟨dom1, hins, _, hpar1, hch1⟩ := insertBefore_spec href
      (contains_eq_false hd (by omega : depth p < depth c)) hne_cm hcm hmem hne_mp
    have hp1 : childNodes dom1 p = (A ++ [c]) ++ m :: B := by
      rw [hch1 p, if_pos rfl, hp, insertBeforeIn_append hmA]
      simp
    have hm1 : childNodes dom1 m = C := by
      rw [hch1 m, if_neg hne_mp, if_pos rfl, hm]
      simp
    have hmp1 : parentNode dom1 m = some p := by
      rw [hpar1 m, if_neg (fun e => hne_cm e.symm)]
      exact hmp
    have hcC : c ∉ C := (List.nodup_cons.mp hnd).1
    have hC1 : ∀ x ∈ C, parentNode dom1 x = some m := by
      intro x hx
      rw [hpar1 x, if_neg (fun (e : x = c) => hcC (e ▸ hx))]
      exact hC x (List.mem_cons_of_mem _ hx)
    have hmA1 : m ∉ A ++ [c] := by
      simp only [List.mem_append, List.mem_singleton, not_or]
      exact ⟨hmA, fun e => hne_cm e.symm⟩
    have hd1 : ∀ x y, parentNode dom1 x = some y → depth y < depth x := by
      intro x y hxy
      rw [hpar1 x] at hxy
      by_cases hx : x = c
      · rw [if_pos hx] at hxy
        cases hxy
        rw [hx]
        omega
      · rw [if_neg hx] at hxy
        exact hd x y hxy
    obtain ⟨dom2, hloop, hp2, hm2, hpar2, hch2⟩ :=
      ih (A ++ [c]) dom1 f (by simp at hfuel; omega) hp1 hm1 hmp1 hC1
        (List.nodup_cons.mp hnd).2 hmA1 hd1
    refine ⟨dom2, ?_, ?_, hm2, ?_, ?_⟩
    · unfold unwrapLoop
      simp only [hm, hins]
      exact hloop
    · rw [hp2]
      simp
    · intro x
      rw [hpar2 x, hpar1 x]
      by_cases hxC : x ∈ C
      · simp [hxC]
      · by_cases hx : x = c
        · simp [hx]
        · simp [hxC, hx]
    · intro x hxp hxm
      rw [hch2 x hxp hxm, hch1 x, if_neg hxp, if_neg hxm]

theorem parentNode_datasetSet (dom : Dom) (n x : NodeId) (key value : String) :
    parentNode (datasetSet dom n key value) x = parentNode dom x := by
  unfold parentNode datasetSet
  rw [getElem?_modifyNode]
  by_cases hx : x = n
  · subst hx
    cases dom[x]? <;> simp
  · simp [hx]

theorem childNodes_datasetSet (dom : Dom) (n x : NodeId) (key value : String) :
    childNodes (datasetSet dom n key value) x = childNodes dom x := by
  unfold childNodes datasetSet
  rw [getElem?_modifyNode]
  by_cases hx : x = n
  · subst hx
    cases dom[x]? <;> simp
  · simp [hx]

theorem foldl_updateTooltipCard_structure (b : Browser) (l : List NodeId) :
    ∀ (acc : Dom × Nat × List TooltipCard) (x : NodeId),
      parentNode (l.foldl (updateTooltipCard b) acc).1 x = parentNode acc.1 x ∧
      childNodes (l.foldl (updateTooltipCard b) acc).1 x = childNodes acc.1 x := by
  induction l with
  | nil => intro acc x; exact ⟨rfl, rfl⟩
  | cons a l ih =>
    intro acc x
    rw [List.foldl_cons]
    obtain ⟨h1, h2⟩ := ih (updateTooltipCard b acc a) x
    rw [h1, h2]
    exact ⟨parentNode_datasetSet _ _ _ _ _, childNodes_datasetSet _ _ _ _ _⟩

/-- The panel refresh, the history entry and the save request leave every parent pointer
and every child list as they are. -/
theorem tail_structure (b : Browser) (s : State) (label : String) (x : NodeId) :
    parentNode (scheduleSave (updateTooltipsPanel b (recordHistory s label))).dom x
        = parentNode s.dom x ∧
    childNodes (scheduleSave (updateTooltipsPanel b (recordHistory s label))).dom x
        = childNodes s.dom x := by
  have hs : ∀ t : State, (scheduleSave t).dom = t.dom := by
    intro t
    unfold scheduleSave
    split <;> rfl
  rw [hs]
  exact foldl_updateTooltipCard_structure b _ _ x

/-- C3. Unwrap preserves content: in a well-formed DOM, for a marker `m` among the
children `A ++ [m] ++ B` of its parent `p`, with children `C` of its own,
`removeTooltip` returns, and afterwards the children of `p` are exactly `A ++ C ++ B`
(nothing lost, duplicated or reordered), every node of `C` has `p` as its parent, `m`
has no parent and is in no child list, and the child lists of all nodes other than `p`
and `m` and the parent pointers of all nodes other than `m` and those of `C` are
unchanged. -/
theorem removeTooltip_children (b : Browser) (s : State) (p m : NodeId)
    (A B C : List NodeId) (hwf : WellFormed s.dom)
    (hp : childNodes s.dom p = A ++ [m] ++ B) (hm : childNodes s.dom m = C) :
    ∃ s1, removeTooltip b s m = some s1 ∧
      childNodes s1.dom p = A ++ C ++ B ∧
      (∀ c ∈ C, parentNode s1.dom c = some p) ∧
      parentNode s1.dom m = none ∧
      (∀ x, m ∉ childNodes s1.dom x) ∧
      (∀ x, x ≠ p → x ≠ m → childNodes s1.dom x = childNodes s.dom x) ∧
      (∀ x, x ≠ m → x ∉ C → parentNode s1.dom x = parentNode s.dom x) := by
  obtain ⟨hpc, hcp, hnd, depth, hd⟩ := hwf
  have hp' : childNodes s.dom p = A ++ m :: B := by simpa using hp
  have hmp : parentNode s.dom m = some p := hcp p m (by rw [hp']; simp)
  have hC : ∀ c ∈ C, parentNode s.dom c = some m := fun c hc => hcp m c (hm ▸ hc)
  have hndp := hnd p
  rw [hp'] at hndp
  have hmA : m ∉ A := by
    intro h
    have := List.nodup_append.mp hndp
    exact this.2.2 h (List.mem_cons_self _ _)
  have hmB : m ∉ B := (List.nodup_cons.mp (List.nodup_append.mp hndp).2.1).1
  have hmC : m ∉ C := by
    intro h
    have := hd m m (hC m h)
    omega
  have hne_mp : m ≠ p := by
    intro e
    have := hd m p hmp
    rw [e] at this
    omega
  obtain ⟨dom1, hloop, hp1, hm1, hpar1, hch1⟩ :=
    unwrapLoop_spec p m depth B C A s.dom C.length (le_refl _) hp' hm hmp hC
      (hm ▸ hnd m) hmA hd
  have hmp1 : parentNode dom1 m = some p := by
    rw [hpar1 m, if_neg hmC]
    exact hmp
  have hmem1 : m ∈ childNodes dom1 p := by rw [hp1]; simp
  have herase : (childNodes dom1 p).erase m = A ++ C ++ B := by
    rw [hp1, List.erase_append_right _ (by simp [hmA, hmC])]
    simp
  refine ⟨scheduleSave (updateTooltipsPanel b
    (recordHistory { s with dom := detach dom1 m } "Tooltip removida")), ?_, ?_⟩
  · unfold removeTooltip
    simp only [hmp, hm, hloop]
    unfold removeChild
    simp [hmem1]
  · have hts := tail_structure b { s with dom := detach dom1 m } "Tooltip removida"
    simp only [fun x => (hts x).1, fun x => (hts x).2]
    have hcd := childNodes_detach hmp1 hmem1
    have hpd := parentNode_detach hmp1
    refine ⟨?_, ?_, ?_, ?_, ?_, ?_⟩
    · rw [hcd p, if_pos rfl, herase]
    · intro c hc
      rw [hpd c, if_neg (fun (e : c = m) => hmC (e ▸ hc)), hpar1 c, if_pos hc]
    · rw [hpd m, if_pos rfl]
    · intro x hx
      rw [hcd x] at hx
      by_cases hxp : x = p
      · rw [if_pos hxp, herase] at hx
        simp only [List.mem_append] at hx
        rcases hx with (h | h) | h
        · exact hmA h
        · exact hmC h
        · exact hmB h
      · rw [if_neg hxp] at hx
        by_cases hxm : x = m
        · rw [hxm, hm1] at hx
          cases hx
        · rw [hch1 x hxp hxm] at hx
          have := hcp x m hx
          rw [hmp] at this
          cases this
          exact hxp rfl
    · intro x hxp hxm
      rw [hcd x, if_neg hxp, hch1 x hxp hxm]
    · intro x hxm hxC
      rw [hpd x, if_neg hxm, hpar1 x, if_neg hxC]

theorem removeTooltip_children_witness :
    WellFormed sampleState.dom ∧ childNodes sampleState.dom 9 = [13] ++ [11] ++ [14] ∧
      childNodes sampleState.dom 11 = [12] ∧
      ∃ s1, removeTooltip sampleBrowser sampleState 11 = some s1 ∧
        childNodes s1.dom 9 = [13] ++ [12] ++ [14] ∧
        (∀ c ∈ [12], parentNode s1.dom c = some 9) ∧
        parentNode s1.dom 11 = none ∧
        (∀ x, 11 ∉ childNodes s1.dom x) ∧
        (∀ x, x ≠ 9 → x ≠ 11 → childNodes s1.dom x = childNodes sampleState.dom x) ∧
        (∀ x, x ≠ 11 → x ∉ [12] → parentNode s1.dom x = parentNode sampleState.dom x) :=
  have hwf : WellFormed sampleState.dom := wellFormed_of_bounded sampleDepth (by decide)
  ⟨hwf, by decide, by decide,
    removeTooltip_children sampleBrowser sampleState 9 11 [13] [14] [12] hwf
      (by decide) (by decide)⟩

/-! ## Selection bridge -/

theorem restoreSelection_dom (b : Browser) (s : State) : (restoreSelection b s).dom = s.dom := by
  unfold restoreSelection
  split
  · rfl
  · split
    · rfl
    · split
      · rfl
      · split
        · split <;> rfl
        · rfl

/-- C4. Snapshot consumed exactly once: for every browser, every state of the snapshot
store and every DOM, after one call to `restoreSelection` the store item is absent (or
is the empty string it already was, which the function reads as no snapshot); a stored
non-empty item is removed whether parsing failed, a path did not resolve, installing
the range failed or everything succeeded; and a second call is a no-op on the whole
state, selection and store included. -/
theorem restoreSelection_consumes (b : Browser) (s : State) :
    ((restoreSelection b s).snapshot = none ∨
      ((restoreSelection b s).snapshot = some "" ∧ s.snapshot = some "")) ∧
    (∀ stored, s.snapshot = some stored → stored ≠ "" →
      (restoreSelection b s).snapshot = none) ∧
    restoreSelection b (restoreSelection b s) = restoreSelection b s ∧
    (restoreSelection b s).dom = s.dom := by
  have key : ∀ stored, s.snapshot = some stored → stored ≠ "" →
      (restoreSelection b s).snapshot = none ∧ (restoreSelection b s).dom = s.dom := by
    intro stored hs hne
    unfold restoreSelection
    simp only [hs, hne, if_false]
    split
    · exact ⟨rfl, rfl⟩
    · split
      · split <;> exact ⟨rfl, rfl⟩
      · exact ⟨rfl, rfl⟩
  have idem : ∀ t : State, t.snapshot = none → restoreSelection b t = t := by
    intro t ht
    unfold restoreSelection
    simp [ht]
  obtain hs | ⟨stored, hs⟩ : s.snapshot = none ∨ ∃ st, s.snapshot = some st := by
    cases s.snapshot <;> simp
  · have h := idem s hs
    rw [h]
    refine ⟨Or.inl hs, ?_, h, rfl⟩
    intro st hst
    rw [hs] at hst
    cases hst
  · by_cases he : stored = ""
    · have h : restoreSelection b s = s := by
        unfold restoreSelection
        simp [hs, he]
      rw [h]
      refine ⟨Or.inr ⟨by rw [hs, he], by rw [hs, he]⟩, ?_, h, rfl⟩
      intro st hst hne
      rw [hs] at hst
      cases hst
      exact absurd he hne
    · obtain ⟨h1, h2⟩ := key stored hs he
      exact ⟨Or.inl h1, fun _ _ _ => h1, idem _ h1, h2⟩

/-- In an unmodified well-formed DOM, a selection whose two containers are the editor or
descendants of it is captured, and the restore that follows hands to the browser the
same two nodes with the same two offsets, provided the serialised snapshot parses back. -/
theorem restoreSelection_storeCurrentSelection (b : Browser) (s : State) (r : Range)
    (hwf : WellFormed s.dom) (hsel : s.selection = some r)
    (hstart : IsDescendant s.dom s.editor r.startContainer)
    (hend : IsDescendant s.dom s.editor r.endContainer)
    (hjson : ∀ x, b.stringify x ≠ "" ∧ b.parse (b.stringify x) = some x) :
    ∃ s1, storeCurrentSelection b s = some s1 ∧
      restoreSelection b s1 =
        match b.selectRange s.dom r.startContainer r.startOffset r.endContainer r.endOffset with
        | none => { s with snapshot := none }
        | some selected => { s with snapshot := none, selection := selected } := by
  obtain ⟨d1, hd1⟩ := hstart
  obtain ⟨d2, hd2⟩ := hend
  obtain ⟨p1, hp1, hr1⟩ := getNodePathLoop_resolve hwf.1 hd1 s.dom.length [] _
    (descendantAt_depth_le hd1) rfl
  obtain ⟨p2, hp2, hr2⟩ := getNodePathLoop_resolve hwf.1 hd2 s.dom.length [] _
    (descendantAt_depth_le hd2) rfl
  refine ⟨{ s with snapshot := some (b.stringify ⟨p1, r.startOffset, p2, r.endOffset⟩) },
    ?_, ?_⟩
  · unfold storeCurrentSelection getNodePath
    simp only [hsel, hp1, hp2]
  · unfold restoreSelection resolveNodePath
    simp only [(hjson _).1, if_false, (hjson _).2, hr1, hr2]

/-! ## Tooltip creation -/

/-- C6. Wrap rejection leaves the tree unchanged: for every browser, state, tooltip text
and icon, if there is no active range, or the range is collapsed, or its common ancestor
is not contained in the editor, `wrapSelectionWithTooltip` returns `null` and the store
of DOM nodes after the call is the one before it (no node was created, none was
changed); the selection and the stored snapshot are unchanged too. -/
theorem wrapSelectionWithTooltip_rejected (b : Browser) (s : State)
    (tooltipText tooltipIcon : String)
    (h : s.selection = none ∨ ∃ r, s.selection = some r ∧
      (r.collapsed = true ∨ contains s.dom s.editor r.commonAncestorContainer = false)) :
    (wrapSelectionWithTooltip b s tooltipText tooltipIcon).1 = none ∧
    (wrapSelectionWithTooltip b s tooltipText tooltipIcon).2.dom = s.dom ∧
    (wrapSelectionWithTooltip b s tooltipText tooltipIcon).2.selection = s.selection ∧
    (wrapSelectionWithTooltip b s tooltipText tooltipIcon).2.snapshot = s.snapshot := by
  unfold wrapSelectionWithTooltip withSelectionGuard
  rcases h with h | ⟨r, hr, h⟩
  · simp [h, notify]
  · simp only [hr]
    by_cases hc : contains s.dom s.editor r.commonAncestorContainer = true
    · have hcol : r.collapsed = true := by
        rcases h with h | h
        · exact h
        · rw [hc] at h
          cases h
      simp [hc, hcol, notify, hr]
    · simp [hc, notify, hr]

theorem wrapSelectionWithTooltip_rejected_witness :
    (caretState.selection = none ∨ ∃ r, caretState.selection = some r ∧
      (r.collapsed = true ∨
        contains caretState.dom caretState.editor r.commonAncestorContainer = false)) ∧
    (wrapSelectionWithTooltip sampleBrowser caretState "note" "").1 = none ∧
    (wrapSelectionWithTooltip sampleBrowser caretState "note" "").2.dom = caretState.dom ∧
    (wrapSelectionWithTooltip sampleBrowser caretState "note" "").2.selection
      = caretState.selection ∧
    (wrapSelectionWithTooltip sampleBrowser caretState "note" "").2.snapshot
      = caretState.snapshot :=
  have h : caretState.selection = none ∨ ∃ r, caretState.selection = some r ∧
      (r.collapsed = true ∨
        contains caretState.dom caretState.editor r.commonAncestorContainer = false) :=
    Or.inr ⟨_, rfl, Or.inl (by decide)⟩
  ⟨h, wrapSelectionWithTooltip_rejected sampleBrowser caretState "note" "" h⟩

/-- C8 (the code at the failing input). On the page `outsideState` the selection lies in
the heading after the editor, outside the editor, and the store holds no snapshot;
`storeCurrentSelection` nevertheless writes a snapshot, with the path `[0, 1, 1, 0]` that
`getNodePath` computed up to the document, and that path, resolved from the editor as
`restoreSelection` does, addresses the text node 12 inside the editor. -/
theorem storeCurrentSelection_outside_editor (b : Browser) :
    outsideState.selection = some headingRange ∧
    contains outsideState.dom outsideState.editor headingRange.startContainer = false ∧
    contains outsideState.dom outsideState.editor headingRange.endContainer = false ∧
    outsideState.snapshot = none ∧
    (storeCurrentSelection b outsideState).map State.snapshot =
      some (some (b.stringify ⟨[0, 1, 1, 0], 0, [0, 1, 1, 0], 7⟩)) ∧
    resolveNodePath outsideState.dom outsideState.editor [0, 1, 1, 0] = some 12 := by
  refine ⟨rfl, by decide, by decide, rfl, ?_, by decide⟩
  have hpath : getNodePath outsideState.dom outsideState.editor 5 = some [0, 1, 1, 0] := by
    decide
  have hsel : outsideState.selection = some headingRange := rfl
  unfold storeCurrentSelection
  simp only [hsel, headingRange, hpath]
  rfl

/-- C7 (the code at the failing input). Without `showModal`, editing the marker 11 of the
sample page through the prompt fallback with the answer `" "` (one space) stores that
text as it is: the marker's tooltip text is not its own trim and is empty after
trimming. The creation path of `wrapSelectionWithTooltip` gives a wrapper with the
empty tooltip text for the same answer. -/
theorem openTooltipDialog_prompt_whitespace :
    sampleBrowser.hasShowModal = false ∧
    datasetGet sampleState.dom 11 "tooltip" = some "greeting" ∧
    (openTooltipDialog sampleBrowser sampleState (some 11) (some " ") none).map
      (fun s => datasetGet s.dom 11 "tooltip") = some (some " ") ∧
    jsTrim " " = "" ∧
    (tooltipWrapper " " "").dataset = [("tooltip", "")] := by
  refine ⟨rfl, by decide, by decide, by decide, by decide⟩

/-- The dialog path validates the text: a confirmed dialog whose text is empty after
trimming changes no node. -/
theorem tooltipDialogClose_blank_text (b : Browser) (s : State)
    (hconfirm : s.dialogReturnValue = "confirm") (hblank : jsTrim s.textInput = "") :
    (tooltipDialogClose b s).dom = s.dom := by
  unfold tooltipDialogClose
  simp only [hconfirm, ne_eq, not_true_eq_false, if_false, hblank, if_true]
  exact (restoreSelection_dom b _)

/-! ## Markdown renderer -/

/-- C5 (the code at the failing input). For the ordered list with the items "A" and "B"
the per-node output keeps the bullet of each list item after the number, and
`htmlToMarkdown` then trims the trailing newlines. -/
theorem processNode_orderedListAB :
    processNode orderedListAB = "1. - A\n2. - B\n\n" ∧
    htmlToMarkdown [orderedListAB] = "1. - A\n2. - B" := by
  refine ⟨by decide, by decide⟩

/-- C9 (counterexample). A tooltip marker without tooltip text whose children render to
`" a "` is rendered as `"a"`: the content is trimmed, not left unmodified. -/
theorem processNode_marker_trims_without_tooltip :
    processChildren [.text " a "] = " a " ∧
    processNode (.element "span" ["tooltip-anchor"] [] [.text " a "]) = "a" ∧
    processNode (.element "span" ["tooltip-anchor"] [] [.text " a "])
      ≠ processChildren [.text " a "] := by
  refine ⟨by decide, by decide, by decide⟩

/-- C9 (amended). For every tooltip marker (a `span` of class `tooltip-anchor`) whose
children render to `c`, the per-node output is `trim(c)` followed by `^{` tooltip text
`}` when the marker has a non-empty tooltip text attribute, and is `trim(c)` alone when
it has none or an empty one. -/
theorem processNode_marker (classList : List String) (attrs : List (String × String))
    (childNodes : List HNode) (h : "tooltip-anchor" ∈ classList) :
    processNode (.element "span" classList attrs childNodes) =
      match getAttribute attrs "data-tooltip" with
      | some t =>
        if t = "" then jsTrim (processChildren childNodes)
        else jsTrim (processChildren childNodes) ++ "^\x7b" ++ t ++ "\x7d"
      | none => jsTrim (processChildren childNodes) := by
  unfold processNode
  simp only [h, if_true, tooltipSuffix]
  have hs : ∀ x : String, x ++ "" = x := fun x => by
    apply String.ext
    simp
  cases getAttribute attrs "data-tooltip" with
  | none => simp [hs]
  | some t =>
    by_cases ht : t = ""
    · simp [ht, hs]
    · simp [ht, String.append_assoc]

theorem processNode_marker_witness :
    "tooltip-anchor" ∈ ["tooltip-anchor"] ∧
    processNode (.element "span" ["tooltip-anchor"] [("data-tooltip", "tip")] [.text " a "]) =
      match getAttribute [("data-tooltip", "tip")] "data-tooltip" with
      | some t =>
        if t = "" then jsTrim (processChildren [.text " a "])
        else jsTrim (processChildren [.text " a "]) ++ "^\x7b" ++ t ++ "\x7d"
      | none => jsTrim (processChildren [.text " a "]) :=
  ⟨by decide, processNode_marker ["tooltip-anchor"] [("data-tooltip", "tip")] [.text " a "]
    (by decide)⟩

/-- A level-1 heading whose children render to `" Title "` is rendered with that white
space kept: the heading cases do not trim the content. -/
theorem processNode_heading_keeps_whitespace :
    processChildren [.text " Title "] = " Title " ∧
    processNode (.element "h1" [] [] [.text " Title "]) = "#  Title \n\n" ∧
    processNode (.element "h1" [] [] [.text " Title "])
      ≠ "# " ++ jsTrim (processChildren [.text " Title "]) ++ "\n\n" := by
  refine ⟨by decide, by decide, by decide⟩

/-- The heading cases as the code has them: for every heading element of level `k` in
1..4 whose children render to `c`, the per-node output is `k` characters `#`, one space,
`c` as it is, and two newlines. -/
theorem processNode_heading (k : Nat) (classList : List String)
    (attrs : List (String × String)) (childNodes : List HNode) (h1 : 1 ≤ k) (h4 : k ≤ 4) :
    processNode (.element ("h" ++ toString k) classList attrs childNodes) =
      String.mk (List.replicate k '#') ++ " " ++ processChildren childNodes ++ "\n\n" := by
  have e1 : ("h" ++ toString 1 : String) = "h1" := by decide
  have e2 : ("h" ++ toString 2 : String) = "h2" := by decide
  have e3 : ("h" ++ toString 3 : String) = "h3" := by decide
  have e4 : ("h" ++ toString 4 : String) = "h4" := by decide
  interval_cases k
  · rw [e1]
    unfold processNode
    simp only [if_true]
    rfl
  · rw [e2]
    unfold processNode
    simp only [show ¬ ("h2" = "h1") by decide, if_false, if_true]
    rfl
  · rw [e3]
    unfold processNode
    simp only [show ¬ ("h3" = "h1") by decide, show ¬ ("h3" = "h2") by decide, if_false,
      if_true]
    rfl
  · rw [e4]
    unfold processNode
    simp only [show ¬ ("h4" = "h1") by decide, show ¬ ("h4" = "h2") by decide,
      show ¬ ("h4" = "h3") by decide, if_false, if_true]
    rfl

theorem processNode_heading_witness :
    1 ≤ 2 ∧ 2 ≤ 4 ∧
    processNode (.element ("h" ++ toString 2) [] [] [.text " Title "]) =
      String.mk (List.replicate 2 '#') ++ " " ++ processChildren [.text " Title "] ++ "\n\n" :=
  ⟨by decide, by decide, processNode_heading 2 [] [] [.text " Title "] (by decide) (by decide)⟩

/-- C10 (the code at the failing input). For `<h1><br>Title</h1>` the children render to
two spaces, a newline and `Title`; the heading case interpolates them untrimmed, so the
heading line is empty and the title falls on the next line, where the claim gives
`# Title`. Followed by the paragraph `x`, `htmlToMarkdown` returns an empty heading and
the title as plain text, while the same content in a paragraph, whose case trims, is
rendered as `Title`. -/
theorem processNode_heading_break :
    processChildren [.element "br" [] [] [], .text "Title"] = "  \nTitle" ∧
    processNode headingWithBreak = "#   \nTitle\n\n" ∧
    "# " ++ jsTrim (processChildren [.element "br" [] [] [], .text "Title"]) ++ "\n\n"
      = "# Title\n\n" ∧
    htmlToMarkdown [headingWithBreak, .element "p" [] [] [.text "x"]] = "#   \nTitle\n\nx" ∧
    htmlToMarkdown [paragraphWithBreak, .element "p" [] [] [.text "x"]] = "Title\n\nx" := by
  refine ⟨by decide, by decide, by decide, by decide, by decide⟩

/-! ## Post-processing of the rendered text -/

theorem shortNewlineRuns_collapse (l : List Char) :
    ∀ n, n ≤ 2 → ShortNewlineRuns n (collapseNewlineChars n l) := by
  induction l with
  | nil =>
    intro n _
    simp [collapseNewlineChars, ShortNewlineRuns]
  | cons c cs ih =>
    intro n hn
    unfold collapseNewlineChars
    by_cases hc : c = '\n'
    · by_cases h2 : n < 2
      · simp only [hc, if_true, h2, ShortNewlineRuns, true_and]
        exact ih (n + 1) (by omega)
      · simp only [hc, if_true, h2, if_false]
        exact ih n hn
    · simp only [hc, if_false, ShortNewlineRuns]
      exact ih 0 (by omega)

theorem shortNewlineRuns_append {s r : List Char} :
    ∀ n, ShortNewlineRuns n (s ++ r) → ∃ m, ShortNewlineRuns m r := by
  induction s with
  | nil => intro n h; exact ⟨n, h⟩
  | cons c cs ih =>
    intro n h
    simp only [List.cons_append, ShortNewlineRuns] at h
    by_cases hc : c = '\n'
    · simp only [hc, if_true] at h
      exact ih _ h.2
    · simp only [hc, if_false] at h
      exact ih _ h

theorem shortNewlineRuns_no_triple {l : List Char} {n : Nat} (h : ShortNewlineRuns n l) :
    ¬ (['\n', '\n', '\n'] <:+: l) := by
  rintro ⟨s, t, rfl⟩
  rw [List.append_assoc] at h
  obtain ⟨m, hm⟩ := shortNewlineRuns_append n h
  simp only [List.cons_append, List.nil_append, ShortNewlineRuns, if_true] at hm
  omega

theorem trimChars_contiguous (l : List Char) : trimChars l <:+: l := by
  unfold trimChars
  have h1 : (l.dropWhile isJsSpace).reverse.dropWhile isJsSpace <:+
      (l.dropWhile isJsSpace).reverse := List.dropWhile_suffix _
  have h2 : ((l.dropWhile isJsSpace).reverse.dropWhile isJsSpace).reverse <+:
      l.dropWhile isJsSpace := by
    have := List.reverse_prefix.mpr h1
    simpa using this
  exact h2.isInfix.trans (List.dropWhile_suffix _).isInfix

theorem trimChars_getLast? (l : List Char) (c : Char)
    (h : (trimChars l).getLast? = some c) : isJsSpace c = false := by
  unfold trimChars at h
  rw [List.getLast?_reverse] at h
  have := List.head?_dropWhile_not isJsSpace (l.dropWhile isJsSpace).reverse
  rw [h] at this
  exact this

theorem getLast?_dropWhile {p : Char → Bool} (l : List Char) (h : l.dropWhile p ≠ []) :
    (l.dropWhile p).getLast? = l.getLast? := by
  have hs : l.dropWhile p <:+ l := List.dropWhile_suffix p
  have hl : l ≠ [] := hs.ne_nil h
  rw [List.getLast?_eq_getLast _ h, List.getLast?_eq_getLast _ hl, hs.getLast h]

theorem trimChars_head? (l : List Char) (c : Char)
    (h : (trimChars l).head? = some c) : isJsSpace c = false := by
  unfold trimChars at h
  rw [List.head?_reverse] at h
  have hne : (l.dropWhile isJsSpace).reverse.dropWhile isJsSpace ≠ [] := by
    intro e
    rw [e] at h
    cases h
  rw [getLast?_dropWhile _ hne, List.getLast?_reverse] at h
  have := List.head?_dropWhile_not isJsSpace l
  rw [h] at this
  exact this

/-- C11. Post-processing shape of the output: for every input tree, the string returned
by `htmlToMarkdown` contains no three consecutive newline characters, and neither its
first nor its last character (if any) is white space. -/
theorem htmlToMarkdown_shape (parsed : List HNode) :
    ¬ (['\n', '\n', '\n'] <:+: (htmlToMarkdown parsed).data) ∧
    (∀ c, (htmlToMarkdown parsed).data.head? = some c → isJsSpace c = false) ∧
    (∀ c, (htmlToMarkdown parsed).data.getLast? = some c → isJsSpace c = false) := by
  unfold htmlToMarkdown jsTrim collapseNewlines
  refine ⟨?_, trimChars_head? _, trimChars_getLast? _⟩
  intro h
  exact shortNewlineRuns_no_triple (shortNewlineRuns_collapse _ 0 (by omega))
    (h.trans (trimChars_contiguous _))

/-- The post-processing at work on the sample document: the rendering of the container
has four newlines in a row and white space at both ends, the result has neither. -/
theorem htmlToMarkdown_spacedDocument :
    processNode (.element "div" [] [] spacedDocument) = "\n\na\n\n\n\nb\n\n " ∧
    htmlToMarkdown spacedDocument = "a\n\nb" := by
  refine ⟨by decide, by decide⟩

end Editor
